import Mathlib

set_option maxHeartbeats 1000000

/-!
Verification of the ID3 tag-editing core of `src/app_main.py`.

The tag container is mutagen's `ID3` object: an insertion-ordered dictionary
from a frame's `HashKey` string to the frame itself.  Text frames hash to
their four-character frame id, comment frames to `"COMM:" ++ desc ++ ":" ++ lang`,
lyrics frames to `"USLT:" ++ desc ++ ":" ++ lang`, and picture frames to
`"APIC:" ++ desc`.  We embed the dictionary as an ordered list of frames in
which each frame sits under its own hash key; dictionary assignment replaces
the binding in place when the key is present and appends otherwise.

Strings are sequences of unicode scalar values, as in Python.  `str.lower`
and `str.isdigit` are modelled character-wise from the Unicode data Python
consults: every case mapping whose output is ASCII (the ASCII uppercase
letters and U+212A KELVIN SIGN), and the Unicode digit set (the decimal-digit
runs of general category Nd together with the Numeric_Type=Digit characters).
-/

/-- The frame kinds the application constructs or reads: mutagen text frames
(`TIT2`, `TPE1`, `TPE2`, `TALB`, `TCOM`, `TCON`, `TDRC`, `TYER`, `TRCK`, `TPOS`),
comment frames (`COMM`), lyrics frames (`USLT`) and attached pictures (`APIC`).
`COMM` carries a list of text values, `USLT` a single string, per mutagen's
frame specs. -/
inductive Frame where
  | text (encoding : Nat) (frameId : String) (txt : List String)
  | comm (encoding : Nat) (lang : String) (desc : String) (txt : List String)
  | uslt (encoding : Nat) (lang : String) (desc : String) (txt : String)
  | apic (encoding : Nat) (mime : String) (ptype : Nat) (desc : String) (data : List Nat)
deriving DecidableEq, Repr

/-- mutagen's `Frame.HashKey`: the dictionary key a frame is stored under. -/
def Frame.hashKey : Frame → String
  | .text _ frameId _ => frameId
  | .comm _ lang desc _ => "COMM:" ++ desc ++ ":" ++ lang
  | .uslt _ lang desc _ => "USLT:" ++ desc ++ ":" ++ lang
  | .apic _ _ _ desc _ => "APIC:" ++ desc

/-- The `type` attribute of a picture frame (the source only reads `.type` on
`APIC` frames; the default branch is never reached on well-formed containers). -/
def Frame.apicType : Frame → Nat
  | .apic _ _ t _ _ => t
  | _ => 0

def Frame.isApic : Frame → Bool
  | .apic _ _ _ _ _ => true
  | _ => false

def Frame.isComm : Frame → Bool
  | .comm _ _ _ _ => true
  | _ => false

def Frame.isUslt : Frame → Bool
  | .uslt _ _ _ _ => true
  | _ => false

/-- A tag container: mutagen's `ID3` dictionary as an ordered frame list. -/
abbrev ID3 := List Frame

/-- Dictionary assignment `tags[frame.HashKey] = frame` (also `ID3.add`):
replace the binding in place when the key is present, append otherwise. -/
def setitem (f : Frame) : ID3 → ID3
  | [] => [f]
  | g :: rest => if g.hashKey = f.hashKey then f :: rest else g :: setitem f rest

/-- Dictionary deletion `del tags[key]` of the (unique) binding of `key`. -/
def delKey (key : String) : ID3 → ID3
  | [] => []
  | g :: rest => if g.hashKey = key then rest else g :: delKey key rest

/-- Python's `str.startswith`. -/
def startswith (s pre : String) : Bool := pre.data.isPrefixOf s.data

/-- mutagen `ID3.getall`: the exact binding when `key` is a dictionary key,
otherwise every frame whose key starts with `key ++ ":"`, in container order. -/
def getall (tags : ID3) (key : String) : List Frame :=
  match tags.find? (fun g => decide (g.hashKey = key)) with
  | some f => [f]
  | none => tags.filter (fun g => startswith g.hashKey (key ++ ":"))

/-- mutagen `ID3.delall`: drop the exact binding when `key` is a dictionary
key, otherwise drop every frame whose key starts with `key ++ ":"`. -/
def delall (tags : ID3) (key : String) : ID3 :=
  if tags.any (fun g => decide (g.hashKey = key)) then delKey key tags
  else tags.filter (fun g => !startswith g.hashKey (key ++ ":"))

/-- Python's character-wise `str.lower`.  The case mappings that produce
ASCII output are represented exactly: the ASCII uppercase letters, and
U+212A KELVIN SIGN, the one non-ASCII code point whose Python lowercase is an
ASCII letter (`k`).  Every other Unicode case mapping sends a non-ASCII
character to non-ASCII output (full casing of U+0130 yields `i` plus a
combining dot, U+2126 yields a Greek omega, fullwidth letters stay fullwidth,
and so on), so it can never land in the ASCII field names, language codes or
picture kinds this program compares lowered strings against; such characters
are kept unchanged. -/
def pyLowerChar (c : Char) : Char :=
  if 65 ≤ c.toNat ∧ c.toNat ≤ 90 then Char.ofNat (c.toNat + 32)
  else if c.toNat = 0x212A then 'k'
  else c

def py_lower (s : String) : String := ⟨s.data.map pyLowerChar⟩

/-- The code points accepted by Python's `str.isdigit`, as inclusive ranges:
the decimal-digit runs of general category Nd (ASCII, Arabic-Indic, the Indic
scripts, Thai, Lao, Tibetan, Myanmar, Khmer, Mongolian, the South- and
South-East-Asian and African scripts, fullwidth digits, the supplementary
plane scripts, the mathematical digits, the segmented digits) together with
the Numeric_Type=Digit characters (superscripts, subscripts, circled,
parenthesized, full-stop and dingbat digits, Kharoshthi digits), per the
Unicode character database. -/
def pyDigitRanges : List (Nat × Nat) :=
  [(0x30, 0x39), (0xB2, 0xB3), (0xB9, 0xB9), (0x660, 0x669), (0x6F0, 0x6F9),
   (0x7C0, 0x7C9), (0x966, 0x96F), (0x9E6, 0x9EF), (0xA66, 0xA6F), (0xAE6, 0xAEF),
   (0xB66, 0xB6F), (0xBE6, 0xBEF), (0xC66, 0xC6F), (0xCE6, 0xCEF), (0xD66, 0xD6F),
   (0xDE6, 0xDEF), (0xE50, 0xE59), (0xED0, 0xED9), (0xF20, 0xF29), (0x1040, 0x1049),
   (0x1090, 0x1099), (0x17E0, 0x17E9), (0x1810, 0x1819), (0x1946, 0x194F),
   (0x19D0, 0x19D9), (0x1A80, 0x1A89), (0x1A90, 0x1A99), (0x1B50, 0x1B59),
   (0x1BB0, 0x1BB9), (0x1C40, 0x1C49), (0x1C50, 0x1C59), (0x2070, 0x2070),
   (0x2074, 0x2079), (0x2080, 0x2089), (0x2460, 0x2468), (0x2474, 0x247C),
   (0x2488, 0x2490), (0x24F5, 0x24FD), (0x2776, 0x277E), (0x2780, 0x2788),
   (0x278A, 0x2792), (0xA620, 0xA629), (0xA8D0, 0xA8D9), (0xA900, 0xA909),
   (0xA9D0, 0xA9D9), (0xA9F0, 0xA9F9), (0xAA50, 0xAA59), (0xABF0, 0xABF9),
   (0xFF10, 0xFF19), (0x104A0, 0x104A9), (0x10A40, 0x10A43), (0x10D30, 0x10D39),
   (0x11066, 0x1106F), (0x110F0, 0x110F9), (0x11136, 0x1113F), (0x111D0, 0x111D9),
   (0x112F0, 0x112F9), (0x11450, 0x11459), (0x114D0, 0x114D9), (0x11650, 0x11659),
   (0x116C0, 0x116C9), (0x11730, 0x11739), (0x118E0, 0x118E9), (0x11950, 0x11959),
   (0x11C50, 0x11C59), (0x11D50, 0x11D59), (0x11DA0, 0x11DA9), (0x11F50, 0x11F59),
   (0x16A60, 0x16A69), (0x16AC0, 0x16AC9), (0x16B50, 0x16B59), (0x1D7CE, 0x1D7FF),
   (0x1E140, 0x1E149), (0x1E2F0, 0x1E2F9), (0x1E4F0, 0x1E4F9), (0x1E950, 0x1E959),
   (0x1FBF0, 0x1FBF9)]

def py_isdigitChar (c : Char) : Bool :=
  pyDigitRanges.any fun r => r.1 ≤ c.toNat && c.toNat ≤ r.2

/-- Python `str.isdigit`: true iff the string is non-empty and every character
is a Unicode digit. -/
def py_isdigit (s : String) : Bool := !decide (s = "") && s.data.all py_isdigitChar

/-- Python's `a or b` on strings: `a` when `a` is non-empty (truthy), else `b`. -/
def pyOr (a b : String) : String := if a = "" then b else a

/-- `COVER_TYPE_MAP = {"front": 3, "back": 4}` (`src/app_main.py` line 37). -/
def COVER_TYPE_MAP : List (String × Nat) := [("front", 3), ("back", 4)]

/-- Base64 alphabet used by `base64.b64encode`. -/
def b64Alphabet : List Char :=
  "ABCDEFGHIJKLMNOPQRSTUVWXYZabcdefghijklmnopqrstuvwxyz0123456789+/".data

def b64Char (n : Nat) : Char := b64Alphabet.getD n 'A'

def b64Chunks : List Nat → List Char
  | [] => []
  | [a] => [b64Char (a / 4), b64Char (a % 4 * 16), '=', '=']
  | [a, b] => [b64Char (a / 4), b64Char (a % 4 * 16 + b / 16), b64Char (b % 16 * 4), '=']
  | a :: b :: c :: rest =>
      b64Char (a / 4) :: b64Char (a % 4 * 16 + b / 16) ::
        b64Char (b % 16 * 4 + c / 64) :: b64Char (c % 64) :: b64Chunks rest

/-- `base64.b64encode(data).decode("ascii")`. -/
def b64encode (data : List Nat) : String := ⟨b64Chunks data⟩

/-- A Python string value that is either a plain `str` or a `list` of `str`
(mutagen text frames expose their text as a list; `get_common` assigns either
a list or `""` to the comment slot). -/
inductive PyText where
  | str (s : String)
  | list (l : List String)
deriving DecidableEq, Repr

/-- The dictionary returned by `get_common` (`src/app_main.py` lines 102-131). -/
structure CommonView where
  title : String
  artist : String
  album : String
  albumartist : String
  composer : String
  genre : String
  date : String
  track : String
  disc : String
  comment : PyText
  lyrics : String
deriving DecidableEq, Repr

/-- The dictionary returned by `get_cover_b64` (`src/app_main.py` lines 193-199). -/
structure CoverInfo where
  mime : String
  data_url : String
deriving DecidableEq, Repr

/-- `get_text` (`src/app_main.py` lines 98-100): first text value of the frame
bound to `key`, or `""`.  The `comm`/`uslt`/`apic` branches mirror what the
Python expression would do on those frame shapes; only text frames can
actually be bound to the four-character keys this helper is called with. -/
def get_text (tags : ID3) (key : String) : String :=
  match tags.find? (fun g => decide (g.hashKey = key)) with
  | some (.text _ _ txt) => txt.headD ""
  | some (.comm _ _ _ txt) => txt.headD ""
  | some (.uslt _ _ _ txt) => txt.take 1
  | some (.apic _ _ _ _ _) => ""
  | none => ""

/-- The comment loop of `get_common` (lines 104-108): the `f.text or ""` of the
first English-language, empty-description comment frame, else `""`.  Frames of
other kinds never occur in `getall tags "COMM"` on well-formed containers and
are skipped. -/
def commentLookup : List Frame → PyText
  | [] => .str ""
  | .comm _ lang desc txt :: rest =>
      if (py_lower lang = "eng" ∨ py_lower lang = "en") ∧ desc = "" then
        (if txt = [] then .str "" else .list txt)
      else commentLookup rest
  | _ :: rest => commentLookup rest

/-- The lyrics loop of `get_common` (lines 110-114); `USLT` text is a single
string, so `f.text or ""` is the text itself. -/
def lyricsLookup : List Frame → String
  | [] => ""
  | .uslt _ lang desc txt :: rest =>
      if (py_lower lang = "eng" ∨ py_lower lang = "en") ∧ desc = "" then txt
      else lyricsLookup rest
  | _ :: rest => lyricsLookup rest

/-- `get_common` (`src/app_main.py` lines 102-131). -/
def get_common (tags : ID3) : CommonView :=
  { title := get_text tags "TIT2"
    artist := get_text tags "TPE1"
    album := get_text tags "TALB"
    albumartist := get_text tags "TPE2"
    composer := get_text tags "TCOM"
    genre := get_text tags "TCON"
    date := pyOr (get_text tags "TDRC") (get_text tags "TYER")
    track := get_text tags "TRCK"
    disc := get_text tags "TPOS"
    comment := commentLookup (getall tags "COMM")
    lyrics := lyricsLookup (getall tags "USLT") }

/-- `set_field` (`src/app_main.py` lines 162-187). -/
def set_field (tags : ID3) (field value : String) : ID3 :=
  let f := py_lower field
  if f = "title" then setitem (.text 3 "TIT2" [value]) tags
  else if f = "artist" then setitem (.text 3 "TPE1" [value]) tags
  else if f = "album" then setitem (.text 3 "TALB" [value]) tags
  else if f = "albumartist" then setitem (.text 3 "TPE2" [value]) tags
  else if f = "composer" then setitem (.text 3 "TCOM" [value]) tags
  else if f = "genre" then setitem (.text 3 "TCON" [value]) tags
  else if f = "date" then
    let t := setitem (.text 3 "TDRC" [value]) tags
    if py_isdigit value && decide (value.length = 4) then
      setitem (.text 3 "TYER" [value]) t
    else t
  else if f = "track" then setitem (.text 3 "TRCK" [value]) tags
  else if f = "disc" then setitem (.text 3 "TPOS" [value]) tags
  else if f = "comment" then setitem (.comm 3 "eng" "" [value]) tags
  else if f = "lyrics" then setitem (.uslt 3 "eng" "" value) tags
  else tags

/-- The `data_url` built by `get_cover_b64` from a picture's mime and bytes. -/
def dataUrl (mime : String) (data : List Nat) : String :=
  "data:" ++ mime ++ ";base64," ++ b64encode data

/-- The loop of `get_cover_b64` over `tags.getall("APIC")`: the first picture
of the requested type code.  Non-picture frames never occur in that list on
well-formed containers and are skipped. -/
def coverFirst (ctype : Nat) : List Frame → Option CoverInfo
  | [] => none
  | .apic _ mime t _ data :: rest =>
      if t = ctype then some ⟨mime, dataUrl mime data⟩ else coverFirst ctype rest
  | _ :: rest => coverFirst ctype rest

/-- `get_cover_b64` (`src/app_main.py` lines 193-199). -/
def get_cover_b64 (tags : ID3) (kind : String) : Option CoverInfo :=
  coverFirst ((COVER_TYPE_MAP.lookup kind).getD 3) (getall tags "APIC")

/-- `remove_cover` (`src/app_main.py` lines 201-218): returns the removed
count together with the mutated container. -/
def remove_cover (tags : ID3) (kind : Option String) : Nat × ID3 :=
  match kind with
  | none => ((getall tags "APIC").length, delall tags "APIC")
  | some k =>
    if k = "all" then ((getall tags "APIC").length, delall tags "APIC")
    else
      let ctype := (COVER_TYPE_MAP.lookup k).getD 3
      let apics := getall tags "APIC"
      let t := delall tags "APIC"
      let kept := apics.filter (fun a => decide (¬ a.apicType = ctype))
      let removed := (apics.filter (fun a => decide (a.apicType = ctype))).length
      (removed, kept.foldl (fun acc a => setitem a acc) t)

/-- The tag mutation performed by the `add_cover` route
(`src/app_main.py` lines 394-405): drop the pictures of the requested type
code, keep the others, then add the new picture with empty description. -/
def add_cover (tags : ID3) (kind mime : String) (data : List Nat) : ID3 :=
  let ctype := (COVER_TYPE_MAP.lookup kind).getD 3
  let apics := getall tags "APIC"
  let t := delall tags "APIC"
  let t := apics.foldl (fun acc a => if ¬ a.apicType = ctype then setitem a acc else acc) t
  setitem (.apic 3 mime ctype "" data) t

/-- Modelled from the spec: the byte-level container parser is provided by the
external mutagen library and is not under `src/`.  Per §4.1 a tag header is
the `"ID3"` magic opening a (at least ten byte) header; a stream without it
has no tag header, which mutagen signals as `ID3NoHeaderError`. -/
def hasTagHeader (bytes : List Nat) : Bool :=
  decide (bytes.length ≥ 10) && [73, 68, 51].isPrefixOf bytes

/-- `load_id3` (`src/app_main.py` lines 86-90) over a byte stream: parse the
frames when a tag header is present, otherwise catch the no-header condition
and return an empty container.  The frame parser for the header-present case
is kept abstract (it is mutagen code, not under `src/`). -/
def load_id3 (parseFrames : List Nat → ID3) (bytes : List Nat) : ID3 :=
  if hasTagHeader bytes then parseFrames bytes else []

/-- Keys a mutagen frame can actually carry: frame ids of text frames are four
characters and are distinct from the frame ids that mutagen maps to the
comment, lyrics and picture classes. -/
def Frame.wfKey : Frame → Bool
  | .text _ frameId _ =>
      decide (frameId.length = 4) && !decide (frameId = "COMM")
        && !decide (frameId = "USLT") && !decide (frameId = "APIC")
  | _ => true

/-- Well-formed containers: the states mutagen's dictionary can be in — every
frame under a distinct hash key, and every frame shaped like a real mutagen
frame. -/
def wf (tags : ID3) : Prop :=
  (tags.map Frame.hashKey).Nodup ∧ ∀ f ∈ tags, Frame.wfKey f = true

instance (tags : ID3) : Decidable (wf tags) := by
  unfold wf; infer_instance


/-! ### Claim-side definitions -/

/-- The frame key a recognized text field name is stored under (the nine
text-frame fields; comment and lyrics are not text frames). -/
def textFieldKey (field : String) : Option String :=
  if field = "title" then some "TIT2"
  else if field = "artist" then some "TPE1"
  else if field = "album" then some "TALB"
  else if field = "albumartist" then some "TPE2"
  else if field = "composer" then some "TCOM"
  else if field = "genre" then some "TCON"
  else if field = "date" then some "TDRC"
  else if field = "track" then some "TRCK"
  else if field = "disc" then some "TPOS"
  else none

/-- The spec's selection rule for the common-view comment slot: a comment
frame whose language is English in 3- or 2-letter form and whose description
is empty. -/
def commMatches : Frame → Bool
  | .comm _ lang desc _ => decide ((py_lower lang = "eng" ∨ py_lower lang = "en") ∧ desc = "")
  | _ => false

/-- The spec's selection rule for the common-view lyrics slot. -/
def usltMatches : Frame → Bool
  | .uslt _ lang desc _ => decide ((py_lower lang = "eng" ∨ py_lower lang = "en") ∧ desc = "")
  | _ => false

/-- The comment the spec says the common view shows: the `f.text or ""` of the
first comment frame selected by `commMatches`, else `""`. -/
def commentSpecOf (tags : ID3) : PyText :=
  match (getall tags "COMM").find? commMatches with
  | some (.comm _ _ _ txt) => if txt = [] then .str "" else .list txt
  | _ => .str ""

/-- The lyrics the spec says the common view shows. -/
def lyricsSpecOf (tags : ID3) : String :=
  match (getall tags "USLT").find? usltMatches with
  | some (.uslt _ _ _ txt) => txt
  | _ => ""

/-- Whether a frame is a picture frame of the given type code. -/
def isApicType (c : Nat) : Frame → Bool
  | .apic _ _ t _ _ => decide (t = c)
  | _ => false

/-- The cover record `get_cover_b64` renders from a picture frame. -/
def apicData : Frame → Option CoverInfo
  | .apic _ m _ _ dat => some ⟨m, dataUrl m dat⟩
  | _ => none

/-! ### Dictionary lemmas -/

theorem mem_setitem {f g : Frame} {tags : ID3} (h : g ∈ setitem f tags) : g = f ∨ g ∈ tags := by
  induction tags with
  | nil => simpa [setitem] using h
  | cons t rest ih =>
    by_cases hk : t.hashKey = f.hashKey
    · simp only [setitem, if_pos hk, List.mem_cons] at h
      rcases h with h | h
      · exact Or.inl h
      · exact Or.inr (List.mem_cons_of_mem _ h)
    · simp only [setitem, if_neg hk, List.mem_cons] at h
      rcases h with h | h
      · exact Or.inr (by simp [h])
      · rcases ih h with h | h
        · exact Or.inl h
        · exact Or.inr (List.mem_cons_of_mem _ h)

theorem mem_keys_setitem {f : Frame} {k : String} {tags : ID3}
    (h : k ∈ (setitem f tags).map Frame.hashKey) :
    k ∈ tags.map Frame.hashKey ∨ k = f.hashKey := by
  rcases List.mem_map.1 h with ⟨g, hg, rfl⟩
  rcases mem_setitem hg with rfl | hg
  · exact Or.inr rfl
  · exact Or.inl (List.mem_map_of_mem _ hg)

theorem nodup_keys_setitem {f : Frame} {tags : ID3}
    (h : (tags.map Frame.hashKey).Nodup) : ((setitem f tags).map Frame.hashKey).Nodup := by
  induction tags with
  | nil => simp [setitem]
  | cons t rest ih =>
    rw [List.map_cons, List.nodup_cons] at h
    by_cases hk : t.hashKey = f.hashKey
    · simp only [setitem, if_pos hk, List.map_cons, List.nodup_cons]
      exact ⟨hk ▸ h.1, h.2⟩
    · simp only [setitem, if_neg hk, List.map_cons, List.nodup_cons]
      refine ⟨fun hmem => ?_, ih h.2⟩
      rcases mem_keys_setitem hmem with hm | hm
      · exact h.1 hm
      · exact hk hm

theorem wf_setitem {f : Frame} {tags : ID3} (h : wf tags) (hf : f.wfKey = true) :
    wf (setitem f tags) := by
  refine ⟨nodup_keys_setitem h.1, fun g hg => ?_⟩
  rcases mem_setitem hg with rfl | hg
  · exact hf
  · exact h.2 g hg

theorem filter_key_setitem_self (f : Frame) {tags : ID3}
    (h : (tags.map Frame.hashKey).Nodup) :
    (setitem f tags).filter (fun g => decide (g.hashKey = f.hashKey)) = [f] := by
  induction tags with
  | nil => simp [setitem]
  | cons t rest ih =>
    rw [List.map_cons, List.nodup_cons] at h
    by_cases hk : t.hashKey = f.hashKey
    · have hrest : rest.filter (fun g => decide (g.hashKey = f.hashKey)) = [] := by
        refine List.filter_eq_nil_iff.2 fun g hg => ?_
        simp only [decide_eq_true_eq]
        intro hgk
        exact h.1 (by rw [hk, ← hgk]; exact List.mem_map_of_mem _ hg)
      simp [setitem, if_pos hk, hrest]
    · simp only [setitem, if_neg hk]
      rw [List.filter_cons_of_neg (by simp [hk])]
      exact ih h.2

theorem filter_key_setitem_other (f : Frame) {k : String} (hk : k ≠ f.hashKey) (tags : ID3) :
    (setitem f tags).filter (fun g => decide (g.hashKey = k)) =
      tags.filter (fun g => decide (g.hashKey = k)) := by
  induction tags with
  | nil => simp [setitem, hk.symm]
  | cons t rest ih =>
    by_cases ht : t.hashKey = f.hashKey
    · simp only [setitem, if_pos ht]
      rw [List.filter_cons_of_neg (by simp [hk.symm]),
        List.filter_cons_of_neg (by simp [ht, hk.symm])]
    · simp only [setitem, if_neg ht]
      by_cases htk : t.hashKey = k
      · rw [List.filter_cons_of_pos (by simp [htk]), List.filter_cons_of_pos (by simp [htk]), ih]
      · rw [List.filter_cons_of_neg (by simp [htk]), List.filter_cons_of_neg (by simp [htk])]
        exact ih

theorem setitem_of_fresh (f : Frame) {tags : ID3}
    (h : f.hashKey ∉ tags.map Frame.hashKey) : setitem f tags = tags ++ [f] := by
  induction tags with
  | nil => rfl
  | cons t rest ih =>
    rw [List.map_cons, List.mem_cons] at h
    push_neg at h
    rw [List.cons_append]
    simp only [setitem, if_neg (fun he : t.hashKey = f.hashKey => h.1 he.symm)]
    exact congrArg (List.cons t) (ih h.2)

theorem setitem_append_left (f : Frame) {base : ID3} (l : ID3)
    (h : f.hashKey ∉ base.map Frame.hashKey) :
    setitem f (base ++ l) = base ++ setitem f l := by
  induction base with
  | nil => rfl
  | cons t rest ih =>
    rw [List.map_cons, List.mem_cons] at h
    push_neg at h
    rw [List.cons_append, List.cons_append]
    simp only [setitem, if_neg (fun he : t.hashKey = f.hashKey => h.1 he.symm)]
    exact congrArg (List.cons t) (ih h.2)

/-! ### Hash-key shape lemmas -/

theorem startswith_length_le {s pre : String} (h : startswith s pre = true) :
    pre.length ≤ s.length :=
  (List.isPrefixOf_iff_prefix.1 h).length_le

theorem startswith_eq_false_of_short {s pre : String} (h : s.length < pre.length) :
    startswith s pre = false := by
  rw [Bool.eq_false_iff]
  intro hp
  exact absurd (startswith_length_le hp) (by omega)

theorem wfKey_text {e : Nat} {fid : String} {t : List String}
    (h : (Frame.text e fid t).wfKey = true) :
    fid.length = 4 ∧ fid ≠ "COMM" ∧ fid ≠ "USLT" ∧ fid ≠ "APIC" := by
  simp only [Frame.wfKey, Bool.and_eq_true, Bool.not_eq_true', decide_eq_false_iff_not,
    decide_eq_true_eq] at h
  exact ⟨h.1.1.1, h.1.1.2, h.1.2, h.2⟩

theorem wfKey_hashKey_ne {f : Frame} (h : f.wfKey = true) {K : String}
    (hK : K = "COMM" ∨ K = "USLT" ∨ K = "APIC") : f.hashKey ≠ K := by
  have hKlen : K.length = 4 := by rcases hK with rfl | rfl | rfl <;> rfl
  cases f with
  | text e fid t =>
    rcases wfKey_text h with ⟨hlen, h1, h2, h3⟩
    rcases hK with rfl | rfl | rfl <;> exact fun he => by simp_all [Frame.hashKey]
  | comm e lg d t =>
    intro he
    have hl := congrArg String.length he
    rw [hKlen] at hl
    simp only [Frame.hashKey, String.length_append] at hl
    have h1 : ("COMM:" : String).length = 5 := rfl
    have h2 : (":" : String).length = 1 := rfl
    omega
  | uslt e lg d t =>
    intro he
    have hl := congrArg String.length he
    rw [hKlen] at hl
    simp only [Frame.hashKey, String.length_append] at hl
    have h1 : ("USLT:" : String).length = 5 := rfl
    have h2 : (":" : String).length = 1 := rfl
    omega
  | apic e m ty d dat =>
    intro he
    have hl := congrArg String.length he
    rw [hKlen] at hl
    simp only [Frame.hashKey, String.length_append] at hl
    have h1 : ("APIC:" : String).length = 5 := rfl
    omega

theorem startswith_prefix_append (pre rest : String) : startswith (pre ++ rest) pre = true := by
  have h : pre.data <+: (pre ++ rest).data := by
    rw [String.data_append]; exact List.prefix_append _ _
  simp only [startswith, List.isPrefixOf_iff_prefix]
  exact h

theorem startswith_ne_first {s pre : String} {a b : Char} {as bs : List Char}
    (hs : s.data = a :: as) (hp : pre.data = b :: bs) (hab : ¬ a = b) :
    startswith s pre = false := by
  have hba : (b == a) = false := by
    simp only [beq_eq_false_iff_ne, ne_eq]
    exact fun h => hab h.symm
  rw [startswith, hs, hp, List.isPrefixOf_cons₂, hba, Bool.false_and]

theorem comm_key_data (e : Nat) (lg d : String) (t : List String) :
    (Frame.comm e lg d t).hashKey.data =
      'C' :: 'O' :: 'M' :: 'M' :: ':' :: (d.data ++ ':' :: lg.data) := by
  simp only [Frame.hashKey, String.data_append]
  simp

theorem uslt_key_data (e : Nat) (lg d : String) (t : String) :
    (Frame.uslt e lg d t).hashKey.data =
      'U' :: 'S' :: 'L' :: 'T' :: ':' :: (d.data ++ ':' :: lg.data) := by
  simp only [Frame.hashKey, String.data_append]
  simp

theorem apic_key_data (e : Nat) (m : String) (ty : Nat) (d : String) (dat : List Nat) :
    (Frame.apic e m ty d dat).hashKey.data = 'A' :: 'P' :: 'I' :: 'C' :: ':' :: d.data := by
  simp only [Frame.hashKey, String.data_append]
  simp

theorem startswith_apic_key {f : Frame} (h : f.wfKey = true) :
    startswith f.hashKey "APIC:" = f.isApic := by
  cases f with
  | text e fid t =>
    show startswith fid "APIC:" = false
    exact startswith_eq_false_of_short (by rw [(wfKey_text h).1]; decide)
  | comm e lg d t =>
    exact startswith_ne_first (comm_key_data e lg d t)
      (show ("APIC:" : String).data = 'A' :: ['P', 'I', 'C', ':'] from by decide) (by decide)
  | uslt e lg d t =>
    exact startswith_ne_first (uslt_key_data e lg d t)
      (show ("APIC:" : String).data = 'A' :: ['P', 'I', 'C', ':'] from by decide) (by decide)
  | apic e m ty d dat =>
    show startswith ("APIC:" ++ d) "APIC:" = true
    exact startswith_prefix_append _ _

theorem startswith_comm_key {f : Frame} (h : f.wfKey = true) :
    startswith f.hashKey "COMM:" = f.isComm := by
  cases f with
  | text e fid t =>
    show startswith fid "COMM:" = false
    exact startswith_eq_false_of_short (by rw [(wfKey_text h).1]; decide)
  | comm e lg d t =>
    show startswith ("COMM:" ++ d ++ ":" ++ lg) "COMM:" = true
    rw [String.append_assoc, String.append_assoc]
    exact startswith_prefix_append _ _
  | uslt e lg d t =>
    exact startswith_ne_first (uslt_key_data e lg d t)
      (show ("COMM:" : String).data = 'C' :: ['O', 'M', 'M', ':'] from by decide) (by decide)
  | apic e m ty d dat =>
    exact startswith_ne_first (apic_key_data e m ty d dat)
      (show ("COMM:" : String).data = 'C' :: ['O', 'M', 'M', ':'] from by decide) (by decide)

theorem startswith_uslt_key {f : Frame} (h : f.wfKey = true) :
    startswith f.hashKey "USLT:" = f.isUslt := by
  cases f with
  | text e fid t =>
    show startswith fid "USLT:" = false
    exact startswith_eq_false_of_short (by rw [(wfKey_text h).1]; decide)
  | comm e lg d t =>
    exact startswith_ne_first (comm_key_data e lg d t)
      (show ("USLT:" : String).data = 'U' :: ['S', 'L', 'T', ':'] from by decide) (by decide)
  | uslt e lg d t =>
    show startswith ("USLT:" ++ d ++ ":" ++ lg) "USLT:" = true
    rw [String.append_assoc, String.append_assoc]
    exact startswith_prefix_append _ _
  | apic e m ty d dat =>
    exact startswith_ne_first (apic_key_data e m ty d dat)
      (show ("USLT:" : String).data = 'U' :: ['S', 'L', 'T', ':'] from by decide) (by decide)

/-! ### `getall` and `delall` on well-formed containers -/

theorem find?_exact_none {tags : ID3} (h : wf tags) {K : String}
    (hK : K = "COMM" ∨ K = "USLT" ∨ K = "APIC") :
    tags.find? (fun g => decide (g.hashKey = K)) = none := by
  rw [List.find?_eq_none]
  intro g hg
  simp only [decide_eq_true_eq]
  exact wfKey_hashKey_ne (h.2 g hg) hK

theorem any_exact_false {tags : ID3} (h : wf tags) {K : String}
    (hK : K = "COMM" ∨ K = "USLT" ∨ K = "APIC") :
    tags.any (fun g => decide (g.hashKey = K)) = false := by
  rw [List.any_eq_false]
  intro g hg
  simp only [decide_eq_true_eq]
  exact wfKey_hashKey_ne (h.2 g hg) hK

theorem getall_apic {tags : ID3} (h : wf tags) :
    getall tags "APIC" = tags.filter Frame.isApic := by
  unfold getall
  rw [find?_exact_none h (Or.inr (Or.inr rfl))]
  refine List.filter_congr fun g hg => ?_
  rw [show ("APIC" ++ ":" : String) = "APIC:" from rfl]
  exact startswith_apic_key (h.2 g hg)

theorem getall_comm {tags : ID3} (h : wf tags) :
    getall tags "COMM" = tags.filter Frame.isComm := by
  unfold getall
  rw [find?_exact_none h (Or.inl rfl)]
  refine List.filter_congr fun g hg => ?_
  rw [show ("COMM" ++ ":" : String) = "COMM:" from rfl]
  exact startswith_comm_key (h.2 g hg)

theorem getall_uslt {tags : ID3} (h : wf tags) :
    getall tags "USLT" = tags.filter Frame.isUslt := by
  unfold getall
  rw [find?_exact_none h (Or.inr (Or.inl rfl))]
  refine List.filter_congr fun g hg => ?_
  rw [show ("USLT" ++ ":" : String) = "USLT:" from rfl]
  exact startswith_uslt_key (h.2 g hg)

theorem delall_apic {tags : ID3} (h : wf tags) :
    delall tags "APIC" = tags.filter (fun g => !g.isApic) := by
  unfold delall
  rw [any_exact_false h (Or.inr (Or.inr rfl))]
  simp only [Bool.false_eq_true, if_false]
  refine List.filter_congr fun g hg => ?_
  rw [show ("APIC" ++ ":" : String) = "APIC:" from rfl]
  rw [startswith_apic_key (h.2 g hg)]

theorem nodup_keys_filter {tags : ID3} (h : (tags.map Frame.hashKey).Nodup) (p : Frame → Bool) :
    (((tags.filter p).map Frame.hashKey)).Nodup :=
  List.Nodup.sublist ((List.filter_sublist _).map _) h

/-! ### Fold lemmas for re-adding kept frames -/

theorem foldl_setitem_ite (c : Nat) (l : List Frame) (base : ID3) :
    l.foldl (fun acc a => if ¬ a.apicType = c then setitem a acc else acc) base =
      (l.filter (fun a => decide (¬ a.apicType = c))).foldl (fun acc a => setitem a acc) base := by
  induction l generalizing base with
  | nil => rfl
  | cons a l ih =>
    by_cases ha : a.apicType = c
    · rw [List.foldl_cons, if_neg (not_not_intro ha), List.filter_cons_of_neg (by simp [ha])]
      exact ih base
    · rw [List.foldl_cons, if_pos ha, List.filter_cons_of_pos (by simpa using ha),
        List.foldl_cons]
      exact ih (setitem a base)

theorem foldl_setitem_append (l : List Frame) (base : ID3)
    (hfresh : ∀ a ∈ l, a.hashKey ∉ base.map Frame.hashKey)
    (hnd : (l.map Frame.hashKey).Nodup) :
    l.foldl (fun acc a => setitem a acc) base = base ++ l := by
  induction l generalizing base with
  | nil => simp
  | cons a l ih =>
    rw [List.map_cons, List.nodup_cons] at hnd
    rw [List.foldl_cons, setitem_of_fresh a (hfresh a (List.mem_cons_self a l))]
    have hfresh2 : ∀ b ∈ l, b.hashKey ∉ (base ++ [a]).map Frame.hashKey := by
      intro b hb
      rw [List.map_append, List.mem_append]
      push_neg
      refine ⟨hfresh b (List.mem_cons_of_mem _ hb), ?_⟩
      simp only [List.map_cons, List.map_nil, List.mem_singleton]
      intro he
      exact hnd.1 (he ▸ List.mem_map_of_mem _ hb)
    rw [ih (base ++ [a]) hfresh2 hnd.2, List.append_assoc]
    rfl

/-! ### Unfolding `set_field` at the recognized field names -/

theorem set_field_title (tags : ID3) (v : String) :
    set_field tags "title" v = setitem (.text 3 "TIT2" [v]) tags := rfl

theorem set_field_artist (tags : ID3) (v : String) :
    set_field tags "artist" v = setitem (.text 3 "TPE1" [v]) tags := rfl

theorem set_field_album (tags : ID3) (v : String) :
    set_field tags "album" v = setitem (.text 3 "TALB" [v]) tags := rfl

theorem set_field_albumartist (tags : ID3) (v : String) :
    set_field tags "albumartist" v = setitem (.text 3 "TPE2" [v]) tags := rfl

theorem set_field_composer (tags : ID3) (v : String) :
    set_field tags "composer" v = setitem (.text 3 "TCOM" [v]) tags := rfl

theorem set_field_genre (tags : ID3) (v : String) :
    set_field tags "genre" v = setitem (.text 3 "TCON" [v]) tags := rfl

theorem set_field_date (tags : ID3) (v : String) :
    set_field tags "date" v =
      (if py_isdigit v && decide (v.length = 4) then
        setitem (.text 3 "TYER" [v]) (setitem (.text 3 "TDRC" [v]) tags)
      else setitem (.text 3 "TDRC" [v]) tags) := rfl

theorem set_field_track (tags : ID3) (v : String) :
    set_field tags "track" v = setitem (.text 3 "TRCK" [v]) tags := rfl

theorem set_field_disc (tags : ID3) (v : String) :
    set_field tags "disc" v = setitem (.text 3 "TPOS" [v]) tags := rfl

theorem set_field_comment (tags : ID3) (v : String) :
    set_field tags "comment" v = setitem (.comm 3 "eng" "" [v]) tags := rfl

theorem set_field_lyrics (tags : ID3) (v : String) :
    set_field tags "lyrics" v = setitem (.uslt 3 "eng" "" v) tags := rfl

theorem set_field_congr {f1 f2 : String} (h : py_lower f1 = py_lower f2) (tags : ID3)
    (v : String) : set_field tags f1 v = set_field tags f2 v := by
  unfold set_field
  rw [h]

theorem set_field_unrecognized {field : String} (tags : ID3) (v : String)
    (h : py_lower field ∉ (["title", "artist", "album", "albumartist", "composer", "genre",
      "date", "track", "disc", "comment", "lyrics"] : List String)) :
    set_field tags field v = tags := by
  simp only [List.mem_cons, List.not_mem_nil, or_false, not_or] at h
  obtain ⟨h1, h2, h3, h4, h5, h6, h7, h8, h9, h10, h11⟩ := h
  simp only [set_field]
  rw [if_neg h1, if_neg h2, if_neg h3, if_neg h4, if_neg h5, if_neg h6, if_neg h7, if_neg h8,
    if_neg h9, if_neg h10, if_neg h11]

theorem wf_set_field {tags : ID3} (h : wf tags) (field v : String) :
    wf (set_field tags field v) := by
  by_cases h1 : py_lower field = "title"
  · rw [set_field_congr (show py_lower field = py_lower "title" from h1) tags v, set_field_title]
    exact wf_setitem h rfl
  by_cases h2 : py_lower field = "artist"
  · rw [set_field_congr (show py_lower field = py_lower "artist" from h2) tags v, set_field_artist]
    exact wf_setitem h rfl
  by_cases h3 : py_lower field = "album"
  · rw [set_field_congr (show py_lower field = py_lower "album" from h3) tags v, set_field_album]
    exact wf_setitem h rfl
  by_cases h4 : py_lower field = "albumartist"
  · rw [set_field_congr (show py_lower field = py_lower "albumartist" from h4) tags v, set_field_albumartist]
    exact wf_setitem h rfl
  by_cases h5 : py_lower field = "composer"
  · rw [set_field_congr (show py_lower field = py_lower "composer" from h5) tags v, set_field_composer]
    exact wf_setitem h rfl
  by_cases h6 : py_lower field = "genre"
  · rw [set_field_congr (show py_lower field = py_lower "genre" from h6) tags v, set_field_genre]
    exact wf_setitem h rfl
  by_cases h7 : py_lower field = "date"
  · rw [set_field_congr (show py_lower field = py_lower "date" from h7) tags v, set_field_date]
    by_cases hd : (py_isdigit v && decide (v.length = 4)) = true
    · rw [if_pos hd]
      exact wf_setitem (wf_setitem h rfl) rfl
    · rw [if_neg hd]
      exact wf_setitem h rfl
  by_cases h8 : py_lower field = "track"
  · rw [set_field_congr (show py_lower field = py_lower "track" from h8) tags v, set_field_track]
    exact wf_setitem h rfl
  by_cases h9 : py_lower field = "disc"
  · rw [set_field_congr (show py_lower field = py_lower "disc" from h9) tags v, set_field_disc]
    exact wf_setitem h rfl
  by_cases h10 : py_lower field = "comment"
  · rw [set_field_congr (show py_lower field = py_lower "comment" from h10) tags v, set_field_comment]
    exact wf_setitem h rfl
  by_cases h11 : py_lower field = "lyrics"
  · rw [set_field_congr (show py_lower field = py_lower "lyrics" from h11) tags v, set_field_lyrics]
    exact wf_setitem h rfl
  rw [set_field_unrecognized tags v (by simp [h1, h2, h3, h4, h5, h6, h7, h8, h9, h10, h11])]
  exact h

/-! ### Small helper lemmas -/

theorem hashKey_text (e : Nat) (fid : String) (t : List String) :
    (Frame.text e fid t).hashKey = fid := rfl

/-! ### Claims -/

/-- **C5**: a byte stream with no tag header parses to the empty container
without failing, and the common view of that container has every common field,
comment and lyrics equal to the empty string, with no front or back picture. -/
theorem claim_C5 (parseFrames : List Nat → ID3) (bytes : List Nat)
    (h : hasTagHeader bytes = false) :
    load_id3 parseFrames bytes = [] ∧
    get_common (load_id3 parseFrames bytes) =
      { title := "", artist := "", album := "", albumartist := "", composer := "", genre := "",
        date := "", track := "", disc := "", comment := .str "", lyrics := "" } ∧
    get_cover_b64 (load_id3 parseFrames bytes) "front" = none ∧
    get_cover_b64 (load_id3 parseFrames bytes) "back" = none := by
  have h0 : load_id3 parseFrames bytes = [] := by simp [load_id3, h]
  rw [h0]
  exact ⟨rfl, rfl, rfl, rfl⟩

/-- Witness for C5 at the empty byte stream prefixed with a zero byte. -/
theorem claim_C5_witness :
    hasTagHeader [0] = false ∧
    (load_id3 (fun _ => ([] : ID3)) [0] = [] ∧
      get_common (load_id3 (fun _ => ([] : ID3)) [0]) =
        { title := "", artist := "", album := "", albumartist := "", composer := "",
          genre := "", date := "", track := "", disc := "", comment := .str "",
          lyrics := "" } ∧
      get_cover_b64 (load_id3 (fun _ => ([] : ID3)) [0]) "front" = none ∧
      get_cover_b64 (load_id3 (fun _ => ([] : ID3)) [0]) "back" = none) :=
  ⟨by decide, claim_C5 (fun _ => []) [0] (by decide)⟩

/-- **C7**: `set_field` with a field name whose lower-casing is outside the
eleven recognized names plus comment and lyrics leaves the container exactly
unchanged (and raises nothing: it is total). -/
theorem claim_C7 (tags : ID3) (field value : String)
    (h : py_lower field ∉ (["title", "artist", "album", "albumartist", "composer", "genre",
      "date", "track", "disc", "comment", "lyrics"] : List String)) :
    set_field tags field value = tags :=
  set_field_unrecognized tags value h

/-- Witness for C7 at the unrecognized field name `"foo"`. -/
theorem claim_C7_witness :
    py_lower "foo" ∉ (["title", "artist", "album", "albumartist", "composer", "genre",
      "date", "track", "disc", "comment", "lyrics"] : List String) ∧
    set_field [Frame.text 3 "TIT2" ["t"]] "foo" "x" = [Frame.text 3 "TIT2" ["t"]] :=
  ⟨by decide, claim_C7 [Frame.text 3 "TIT2" ["t"]] "foo" "x" (by decide)⟩

/-- **C9**: `set_field` dispatches on the lower-cased field name, so any two
spellings with the same lower-casing (in particular any mixed-case spelling of
a recognized name and its all-lowercase form) mutate the container
identically. -/
theorem claim_C9 (tags : ID3) (field1 field2 value : String)
    (h : py_lower field1 = py_lower field2) :
    set_field tags field1 value = set_field tags field2 value :=
  set_field_congr h tags value

/-- Witness for C9 at the mixed-case spelling `"TiTle"`. -/
theorem claim_C9_witness :
    py_lower "TiTle" = py_lower "title" ∧
    set_field [] "TiTle" "x" = set_field [] "title" "x" :=
  ⟨by decide, claim_C9 [] "TiTle" "title" "x" (by decide)⟩

/-- **C10**: the common view's date is the primary date frame's text when that
is non-empty and otherwise the legacy year frame's text, and it is empty
exactly when both are absent or empty. -/
theorem claim_C10 (tags : ID3) :
    (get_common tags).date =
        (if get_text tags "TDRC" = "" then get_text tags "TYER" else get_text tags "TDRC") ∧
    ((get_common tags).date = "" ↔
      get_text tags "TDRC" = "" ∧ get_text tags "TYER" = "") := by
  constructor
  · rfl
  · show pyOr (get_text tags "TDRC") (get_text tags "TYER") = "" ↔ _
    unfold pyOr
    by_cases h : get_text tags "TDRC" = ""
    · rw [if_pos h]
      simp [h]
    · rw [if_neg h]
      simp [h]

/-- **C2**: setting the same recognized text field twice leaves exactly one
text frame under that field's key, holding the second value. -/
theorem claim_C2 (tags : ID3) (field K v1 v2 : String) (hwf : wf tags)
    (hK : textFieldKey field = some K) :
    (set_field (set_field tags field v1) field v2).filter
        (fun g => decide (g.hashKey = K)) = [.text 3 K [v2]] := by
  unfold textFieldKey at hK
  split_ifs at hK with h1 h2 h3 h4 h5 h6 h7 h8 h9 <;>
    try injection hK with hK
  case _ =>
    subst h1; subst hK
    rw [set_field_title (set_field tags "title" v1) v2]
    exact filter_key_setitem_self (Frame.text 3 "TIT2" [v2]) (wf_set_field hwf "title" v1).1
  case _ =>
    subst h2; subst hK
    rw [set_field_artist (set_field tags "artist" v1) v2]
    exact filter_key_setitem_self (Frame.text 3 "TPE1" [v2]) (wf_set_field hwf "artist" v1).1
  case _ =>
    subst h3; subst hK
    rw [set_field_album (set_field tags "album" v1) v2]
    exact filter_key_setitem_self (Frame.text 3 "TALB" [v2]) (wf_set_field hwf "album" v1).1
  case _ =>
    subst h4; subst hK
    rw [set_field_albumartist (set_field tags "albumartist" v1) v2]
    exact filter_key_setitem_self (Frame.text 3 "TPE2" [v2]) (wf_set_field hwf "albumartist" v1).1
  case _ =>
    subst h5; subst hK
    rw [set_field_composer (set_field tags "composer" v1) v2]
    exact filter_key_setitem_self (Frame.text 3 "TCOM" [v2]) (wf_set_field hwf "composer" v1).1
  case _ =>
    subst h6; subst hK
    rw [set_field_genre (set_field tags "genre" v1) v2]
    exact filter_key_setitem_self (Frame.text 3 "TCON" [v2]) (wf_set_field hwf "genre" v1).1
  case _ =>
    subst h7; subst hK
    rw [set_field_date (set_field tags "date" v1) v2]
    by_cases hc : (py_isdigit v2 && decide (v2.length = 4)) = true
    · rw [if_pos hc]
      rw [@filter_key_setitem_other (Frame.text 3 "TYER" [v2]) "TDRC"
        (by rw [hashKey_text]; decide) (setitem (Frame.text 3 "TDRC" [v2]) (set_field tags "date" v1))]
      exact filter_key_setitem_self (Frame.text 3 "TDRC" [v2]) (wf_set_field hwf "date" v1).1
    · rw [if_neg hc]
      exact filter_key_setitem_self (Frame.text 3 "TDRC" [v2]) (wf_set_field hwf "date" v1).1
  case _ =>
    subst h8; subst hK
    rw [set_field_track (set_field tags "track" v1) v2]
    exact filter_key_setitem_self (Frame.text 3 "TRCK" [v2]) (wf_set_field hwf "track" v1).1
  case _ =>
    subst h9; subst hK
    rw [set_field_disc (set_field tags "disc" v1) v2]
    exact filter_key_setitem_self (Frame.text 3 "TPOS" [v2]) (wf_set_field hwf "disc" v1).1

/-- Witness for C2: setting the title twice on a container that already holds
a title leaves exactly the second title frame. -/
theorem claim_C2_witness :
    wf [Frame.text 3 "TIT2" ["old"]] ∧
    textFieldKey "title" = some "TIT2" ∧
    (set_field (set_field [Frame.text 3 "TIT2" ["old"]] "title" "a") "title" "b").filter
        (fun g => decide (g.hashKey = "TIT2")) = [.text 3 "TIT2" ["b"]] :=
  ⟨by decide, by decide,
    claim_C2 [Frame.text 3 "TIT2" ["old"]] "title" "TIT2" "a" "b" (by decide) (by decide)⟩

/-! ### Comment and lyrics selection lemmas -/

theorem commentLookup_eq_find (l : List Frame) (hall : ∀ f ∈ l, f.isComm = true) :
    commentLookup l =
      (match l.find? commMatches with
        | some (.comm _ _ _ txt) => if txt = [] then .str "" else .list txt
        | _ => .str "") := by
  induction l with
  | nil => rfl
  | cons f rest ih =>
    have hf := hall f (List.mem_cons_self f rest)
    cases f with
    | comm e lg d t =>
      simp only [commentLookup]
      by_cases hm : (py_lower lg = "eng" ∨ py_lower lg = "en") ∧ d = ""
      · rw [if_pos hm,
          List.find?_cons_of_pos _ (by simp only [commMatches, decide_eq_true_eq]; exact hm)]
      · rw [if_neg hm,
          List.find?_cons_of_neg _ (by simp only [commMatches, decide_eq_true_eq]; exact hm)]
        exact ih fun g hg => hall g (List.mem_cons_of_mem _ hg)
    | text e fid t => exact absurd hf (by simp [Frame.isComm])
    | uslt e lg d t => exact absurd hf (by simp [Frame.isComm])
    | apic e m ty d dat => exact absurd hf (by simp [Frame.isComm])

theorem lyricsLookup_eq_find (l : List Frame) (hall : ∀ f ∈ l, f.isUslt = true) :
    lyricsLookup l =
      (match l.find? usltMatches with
        | some (.uslt _ _ _ txt) => txt
        | _ => "") := by
  induction l with
  | nil => rfl
  | cons f rest ih =>
    have hf := hall f (List.mem_cons_self f rest)
    cases f with
    | uslt e lg d t =>
      simp only [lyricsLookup]
      by_cases hm : (py_lower lg = "eng" ∨ py_lower lg = "en") ∧ d = ""
      · rw [if_pos hm,
          List.find?_cons_of_pos _ (by simp only [usltMatches, decide_eq_true_eq]; exact hm)]
      · rw [if_neg hm,
          List.find?_cons_of_neg _ (by simp only [usltMatches, decide_eq_true_eq]; exact hm)]
        exact ih fun g hg => hall g (List.mem_cons_of_mem _ hg)
    | text e fid t => exact absurd hf (by simp [Frame.isUslt])
    | comm e lg d t => exact absurd hf (by simp [Frame.isUslt])
    | apic e m ty d dat => exact absurd hf (by simp [Frame.isUslt])

theorem filter_not_setitem (p : Frame → Bool) (f : Frame) {tags : ID3} (hf : p f = true)
    (hall : ∀ g ∈ tags, g.hashKey = f.hashKey → p g = true) :
    (setitem f tags).filter (fun g => !p g) = tags.filter (fun g => !p g) := by
  induction tags with
  | nil => simp [setitem, hf]
  | cons t rest ih =>
    by_cases hk : t.hashKey = f.hashKey
    · simp only [setitem, if_pos hk]
      rw [List.filter_cons_of_neg (by simp [hf]),
        List.filter_cons_of_neg (by simp [hall t (List.mem_cons_self t rest) hk])]
    · simp only [setitem, if_neg hk]
      by_cases hp : p t = true
      · rw [List.filter_cons_of_neg (by simp [hp]), List.filter_cons_of_neg (by simp [hp])]
        exact ih fun g hg hk2 => hall g (List.mem_cons_of_mem _ hg) hk2
      · have hp2 : p t = false := Bool.eq_false_iff.2 hp
        rw [List.filter_cons_of_pos (by simp [hp2]), List.filter_cons_of_pos (by simp [hp2])]
        exact congrArg (List.cons t) (ih fun g hg hk2 => hall g (List.mem_cons_of_mem _ hg) hk2)

theorem comm_engKey_inj {d lg : String} (h : d.data ++ ':' :: lg.data = [':', 'e', 'n', 'g']) :
    d = "" ∧ lg = "eng" := by
  cases hd : d.data with
  | nil =>
    rw [hd, List.nil_append] at h
    have hlg := (List.cons.inj h).2
    constructor
    · calc d = ⟨d.data⟩ := rfl
        _ = "" := by rw [hd]
    · calc lg = ⟨lg.data⟩ := rfl
        _ = "eng" := by rw [hlg]
  | cons c cs =>
    rw [hd, List.cons_append] at h
    have hc := (List.cons.inj h).1
    have htl := (List.cons.inj h).2
    have hmem : (':' : Char) ∈ (['e', 'n', 'g'] : List Char) := by
      rw [← htl]
      exact List.mem_append_right _ (List.mem_cons_self _ _)
    exact absurd hmem (by decide)

theorem matches_of_hashKey_commEng {g : Frame} (hwfk : g.wfKey = true)
    (he : g.hashKey = "COMM::eng") : commMatches g = true := by
  cases g with
  | text e fid t =>
    have h4 := (wfKey_text hwfk).1
    rw [hashKey_text] at he
    have hl := congrArg String.length he
    rw [h4] at hl
    exact absurd hl (by decide)
  | uslt e lg d t =>
    have hdata := congrArg String.data he
    rw [uslt_key_data] at hdata
    simp at hdata
  | apic e m ty d dat =>
    have hdata := congrArg String.data he
    rw [apic_key_data] at hdata
    simp at hdata
  | comm e lg d t =>
    have hdata := congrArg String.data he
    rw [comm_key_data] at hdata
    have h9 : ("COMM::eng" : String).data =
        'C' :: 'O' :: 'M' :: 'M' :: ':' :: [':', 'e', 'n', 'g'] := by decide
    rw [h9] at hdata
    have h5 :=
      (List.cons.inj (List.cons.inj (List.cons.inj (List.cons.inj
        (List.cons.inj hdata).2).2).2).2).2
    obtain ⟨hd, hlg⟩ := comm_engKey_inj h5
    subst hd; subst hlg
    rfl

theorem matches_of_hashKey_usltEng {g : Frame} (hwfk : g.wfKey = true)
    (he : g.hashKey = "USLT::eng") : usltMatches g = true := by
  cases g with
  | text e fid t =>
    have h4 := (wfKey_text hwfk).1
    rw [hashKey_text] at he
    have hl := congrArg String.length he
    rw [h4] at hl
    exact absurd hl (by decide)
  | comm e lg d t =>
    have hdata := congrArg String.data he
    rw [comm_key_data] at hdata
    simp at hdata
  | apic e m ty d dat =>
    have hdata := congrArg String.data he
    rw [apic_key_data] at hdata
    simp at hdata
  | uslt e lg d t =>
    have hdata := congrArg String.data he
    rw [uslt_key_data] at hdata
    have h9 : ("USLT::eng" : String).data =
        'U' :: 'S' :: 'L' :: 'T' :: ':' :: [':', 'e', 'n', 'g'] := by decide
    rw [h9] at hdata
    have h5 :=
      (List.cons.inj (List.cons.inj (List.cons.inj (List.cons.inj
        (List.cons.inj hdata).2).2).2).2).2
    obtain ⟨hd, hlg⟩ := comm_engKey_inj h5
    subst hd; subst hlg
    rfl

/-- **C8**: the common view's comment (lyrics) is the `text or ""` of the first
comment (lyrics) frame whose language is English in 3- or 2-letter form with
empty description — and `""` when none matches — while frames not matching
that rule are left exactly in place by `set_field` on comment and lyrics. -/
theorem claim_C8 (tags : ID3) (v w : String) (hwf : wf tags) :
    (get_common tags).comment = commentSpecOf tags ∧
    (get_common tags).lyrics = lyricsSpecOf tags ∧
    (set_field tags "comment" v).filter (fun f => !commMatches f) =
      tags.filter (fun f => !commMatches f) ∧
    (set_field tags "lyrics" w).filter (fun f => !usltMatches f) =
      tags.filter (fun f => !usltMatches f) := by
  refine ⟨?_, ?_, ?_, ?_⟩
  · show commentLookup (getall tags "COMM") = commentSpecOf tags
    unfold commentSpecOf
    exact commentLookup_eq_find _ fun f hf => by
      rw [getall_comm hwf] at hf
      exact (List.mem_filter.1 hf).2
  · show lyricsLookup (getall tags "USLT") = lyricsSpecOf tags
    unfold lyricsSpecOf
    exact lyricsLookup_eq_find _ fun f hf => by
      rw [getall_uslt hwf] at hf
      exact (List.mem_filter.1 hf).2
  · rw [set_field_comment]
    exact filter_not_setitem commMatches _ rfl
      fun g hg hk => matches_of_hashKey_commEng (hwf.2 g hg) hk
  · rw [set_field_lyrics]
    exact filter_not_setitem usltMatches _ rfl
      fun g hg hk => matches_of_hashKey_usltEng (hwf.2 g hg) hk

/-- Witness for C8 on a container holding French and English comments plus
upper-cased-language lyrics. -/
theorem claim_C8_witness :
    wf [Frame.comm 3 "fra" "" ["bonjour"], Frame.comm 3 "eng" "" ["hi"],
        Frame.uslt 3 "ENG" "" "la"] ∧
    ((get_common [Frame.comm 3 "fra" "" ["bonjour"], Frame.comm 3 "eng" "" ["hi"],
        Frame.uslt 3 "ENG" "" "la"]).comment =
      commentSpecOf [Frame.comm 3 "fra" "" ["bonjour"], Frame.comm 3 "eng" "" ["hi"],
        Frame.uslt 3 "ENG" "" "la"] ∧
    (get_common [Frame.comm 3 "fra" "" ["bonjour"], Frame.comm 3 "eng" "" ["hi"],
        Frame.uslt 3 "ENG" "" "la"]).lyrics =
      lyricsSpecOf [Frame.comm 3 "fra" "" ["bonjour"], Frame.comm 3 "eng" "" ["hi"],
        Frame.uslt 3 "ENG" "" "la"] ∧
    (set_field [Frame.comm 3 "fra" "" ["bonjour"], Frame.comm 3 "eng" "" ["hi"],
        Frame.uslt 3 "ENG" "" "la"] "comment" "x").filter (fun f => !commMatches f) =
      [Frame.comm 3 "fra" "" ["bonjour"], Frame.comm 3 "eng" "" ["hi"],
        Frame.uslt 3 "ENG" "" "la"].filter (fun f => !commMatches f) ∧
    (set_field [Frame.comm 3 "fra" "" ["bonjour"], Frame.comm 3 "eng" "" ["hi"],
        Frame.uslt 3 "ENG" "" "la"] "lyrics" "y").filter (fun f => !usltMatches f) =
      [Frame.comm 3 "fra" "" ["bonjour"], Frame.comm 3 "eng" "" ["hi"],
        Frame.uslt 3 "ENG" "" "la"].filter (fun f => !usltMatches f)) :=
  ⟨by decide,
    claim_C8 [Frame.comm 3 "fra" "" ["bonjour"], Frame.comm 3 "eng" "" ["hi"],
      Frame.uslt 3 "ENG" "" "la"] "x" "y" (by decide)⟩

/-! ### Picture lemmas -/

theorem wf_filter {tags : ID3} (h : wf tags) (p : Frame → Bool) : wf (tags.filter p) :=
  ⟨nodup_keys_filter h.1 p, fun f hf => h.2 f (List.mem_filter.1 hf).1⟩

theorem mem_getall_apic {tags : ID3} (hwf : wf tags) {a : Frame} {p : Frame → Bool}
    (ha : a ∈ (getall tags "APIC").filter p) : a ∈ tags ∧ a.isApic = true := by
  rw [getall_apic hwf] at ha
  exact ⟨(List.mem_filter.1 (List.mem_filter.1 ha).1).1,
    (List.mem_filter.1 (List.mem_filter.1 ha).1).2⟩

theorem kept_fresh {tags : ID3} (hwf : wf tags) (p : Frame → Bool) :
    ∀ a ∈ (getall tags "APIC").filter p,
      a.hashKey ∉ (delall tags "APIC").map Frame.hashKey := by
  intro a ha hmem
  obtain ⟨haT, haA⟩ := mem_getall_apic hwf ha
  rw [delall_apic hwf] at hmem
  rcases List.mem_map.1 hmem with ⟨g, hg, hgk⟩
  have hgA : g.isApic = false := by simpa using (List.mem_filter.1 hg).2
  have h1 : startswith a.hashKey "APIC:" = true := by
    rw [startswith_apic_key (hwf.2 a haT)]; exact haA
  have h2 : startswith g.hashKey "APIC:" = false := by
    rw [startswith_apic_key (hwf.2 g (List.mem_filter.1 hg).1)]; exact hgA
  rw [hgk, h1] at h2
  exact Bool.noConfusion h2

theorem kept_nodup {tags : ID3} (hwf : wf tags) (p : Frame → Bool) :
    (((getall tags "APIC").filter p).map Frame.hashKey).Nodup := by
  rw [getall_apic hwf]
  exact nodup_keys_filter (nodup_keys_filter hwf.1 _) _

theorem remove_cover_some {tags : ID3} (hwf : wf tags) {kind : String} (hk : kind ≠ "all") :
    remove_cover tags (some kind) =
      (((getall tags "APIC").filter
          (fun a => decide (a.apicType = (COVER_TYPE_MAP.lookup kind).getD 3))).length,
        delall tags "APIC" ++
          (getall tags "APIC").filter
            (fun a => decide (¬ a.apicType = (COVER_TYPE_MAP.lookup kind).getD 3))) := by
  unfold remove_cover
  dsimp only
  rw [if_neg hk]
  refine congrArg ((((getall tags "APIC").filter
    (fun a => decide (a.apicType = (COVER_TYPE_MAP.lookup kind).getD 3))).length, ·)) ?_
  exact foldl_setitem_append _ _ (kept_fresh hwf _) (kept_nodup hwf _)

theorem add_cover_eq {tags : ID3} (hwf : wf tags) (kind mime : String) (data : List Nat) :
    add_cover tags kind mime data =
      setitem (.apic 3 mime ((COVER_TYPE_MAP.lookup kind).getD 3) "" data)
        (delall tags "APIC" ++
          (getall tags "APIC").filter
            (fun a => decide (¬ a.apicType = (COVER_TYPE_MAP.lookup kind).getD 3))) := by
  unfold add_cover
  dsimp only
  rw [foldl_setitem_ite]
  exact congrArg _ (foldl_setitem_append _ _ (kept_fresh hwf _) (kept_nodup hwf _))

theorem coverFirst_eq_find (c : Nat) (l : List Frame) :
    coverFirst c l = (l.find? (isApicType c)).bind apicData := by
  induction l with
  | nil => rfl
  | cons f rest ih =>
    cases f with
    | apic e m t d dat =>
      simp only [coverFirst]
      by_cases ht : t = c
      · rw [if_pos ht, List.find?_cons_of_pos _ (by simp [isApicType, ht])]
        simp [apicData]
      · rw [if_neg ht, List.find?_cons_of_neg _ (by simp [isApicType, ht])]
        exact ih
    | text e fid t =>
      simp only [coverFirst]
      rw [List.find?_cons_of_neg _ (by simp [isApicType])]
      exact ih
    | comm e lg d t =>
      simp only [coverFirst]
      rw [List.find?_cons_of_neg _ (by simp [isApicType])]
      exact ih
    | uslt e lg d t =>
      simp only [coverFirst]
      rw [List.find?_cons_of_neg _ (by simp [isApicType])]
      exact ih

theorem find?_setitem_of_found {p : Frame → Bool} {f b : Frame} (hp : p f = false)
    {tags : ID3} (hb : tags.find? p = some b) (hbk : ¬ b.hashKey = f.hashKey) :
    (setitem f tags).find? p = some b := by
  induction tags with
  | nil => simp at hb
  | cons t rest ih =>
    by_cases hk : t.hashKey = f.hashKey
    · simp only [setitem, if_pos hk]
      rw [List.find?_cons_of_neg _ (by simp [hp])]
      by_cases hpt : p t = true
      · rw [List.find?_cons_of_pos _ hpt] at hb
        obtain rfl := Option.some.inj hb
        exact absurd hk hbk
      · rw [List.find?_cons_of_neg _ hpt] at hb
        exact hb
    · simp only [setitem, if_neg hk]
      by_cases hpt : p t = true
      · rw [List.find?_cons_of_pos _ hpt] at hb ⊢
        exact hb
      · rw [List.find?_cons_of_neg _ hpt] at hb ⊢
        exact ih hb

theorem find?_setitem_of_none {p : Frame → Bool} {f : Frame} (hp : p f = true)
    {tags : ID3} (hnone : ∀ g ∈ tags, p g = false) :
    (setitem f tags).find? p = some f := by
  induction tags with
  | nil => simp [setitem, hp]
  | cons t rest ih =>
    by_cases hk : t.hashKey = f.hashKey
    · simp only [setitem, if_pos hk]
      rw [List.find?_cons_of_pos _ hp]
    · simp only [setitem, if_neg hk]
      rw [List.find?_cons_of_neg _ (by simp [hnone t (List.mem_cons_self t rest)])]
      exact ih fun g hg => hnone g (List.mem_cons_of_mem _ hg)

theorem find?_filter_of_imp {p q : Frame → Bool} (l : List Frame)
    (himp : ∀ a, p a = true → q a = true) :
    (l.filter q).find? p = l.find? p := by
  induction l with
  | nil => rfl
  | cons a l ih =>
    by_cases hq : q a = true
    · rw [List.filter_cons_of_pos hq]
      by_cases hp : p a = true
      · rw [List.find?_cons_of_pos _ hp, List.find?_cons_of_pos _ hp]
      · rw [List.find?_cons_of_neg _ hp, List.find?_cons_of_neg _ hp]
        exact ih
    · rw [List.filter_cons_of_neg hq, List.find?_cons_of_neg _ fun hp => hq (himp a hp)]
      exact ih

theorem apic_desc_inj {e1 e2 t1 t2 : Nat} {m1 m2 d1 d2 : String}
    {dat1 dat2 : List Nat}
    (he : (Frame.apic e1 m1 t1 d1 dat1).hashKey = (Frame.apic e2 m2 t2 d2 dat2).hashKey) :
    d1 = d2 := by
  have hdata := congrArg String.data he
  rw [apic_key_data, apic_key_data] at hdata
  have h5 :=
    (List.cons.inj (List.cons.inj (List.cons.inj (List.cons.inj
      (List.cons.inj hdata).2).2).2).2).2
  calc d1 = ⟨d1.data⟩ := rfl
    _ = ⟨d2.data⟩ := by rw [h5]
    _ = d2 := rfl

theorem getall_apic_rebuild {tags : ID3} (hwf : wf tags) (L : List Frame)
    (hL : ∀ g ∈ L, g.wfKey = true ∧ g.isApic = true) :
    getall (delall tags "APIC" ++ L) "APIC" = L := by
  have hnone : ((delall tags "APIC" ++ L).find? (fun g => decide (g.hashKey = "APIC"))) =
      none := by
    rw [List.find?_eq_none]
    intro g hg
    simp only [decide_eq_true_eq]
    rcases List.mem_append.1 hg with hg | hg
    · rw [delall_apic hwf] at hg
      exact wfKey_hashKey_ne (hwf.2 g (List.mem_filter.1 hg).1) (Or.inr (Or.inr rfl))
    · exact wfKey_hashKey_ne (hL g hg).1 (Or.inr (Or.inr rfl))
  have hD : ∀ g ∈ delall tags "APIC", ¬ (startswith g.hashKey ("APIC" ++ ":") = true) := by
    intro g hg
    rw [delall_apic hwf] at hg
    rw [show ("APIC" ++ ":" : String) = "APIC:" from rfl,
      startswith_apic_key (hwf.2 g (List.mem_filter.1 hg).1)]
    simpa using (List.mem_filter.1 hg).2
  have hS : ∀ g ∈ L, startswith g.hashKey ("APIC" ++ ":") = true := by
    intro g hg
    rw [show ("APIC" ++ ":" : String) = "APIC:" from rfl,
      startswith_apic_key (hL g hg).1]
    exact (hL g hg).2
  unfold getall
  rw [hnone]
  dsimp only
  rw [List.filter_append, List.filter_eq_nil_iff.2 hD, List.nil_append,
    List.filter_eq_self.2 hS]

/-- **C4**: removing pictures with the kind absent or `"all"` removes every
picture and reports how many there were; removing a specific kind removes
exactly the pictures of that kind's type code, reports their number, and keeps
the other pictures in their original relative order. -/
theorem claim_C4 (tags : ID3) (kind : String) (hwf : wf tags) (hk : kind ≠ "all") :
    (remove_cover tags none).1 = (getall tags "APIC").length ∧
    remove_cover tags (some "all") = remove_cover tags none ∧
    getall (remove_cover tags none).2 "APIC" = [] ∧
    (remove_cover tags (some kind)).1 =
      ((getall tags "APIC").filter
        (fun a => decide (a.apicType = (COVER_TYPE_MAP.lookup kind).getD 3))).length ∧
    getall (remove_cover tags (some kind)).2 "APIC" =
      (getall tags "APIC").filter
        (fun a => decide (¬ a.apicType = (COVER_TYPE_MAP.lookup kind).getD 3)) := by
  refine ⟨rfl, by unfold remove_cover; dsimp only; rw [if_pos rfl], ?_, ?_, ?_⟩
  · have h := getall_apic_rebuild hwf [] (fun g hg => absurd hg (List.not_mem_nil g))
    rw [List.append_nil] at h
    exact h
  · rw [remove_cover_some hwf hk]
  · rw [remove_cover_some hwf hk]
    exact getall_apic_rebuild hwf _ fun g hg =>
      ⟨hwf.2 g (mem_getall_apic hwf hg).1, (mem_getall_apic hwf hg).2⟩

/-- Witness for C4 on a container holding one front and one back picture,
removing the front kind. -/
theorem claim_C4_witness :
    wf [Frame.apic 3 "m" 3 "a" [1], Frame.apic 3 "n" 4 "b" [2]] ∧ ("front" : String) ≠ "all" ∧
    ((remove_cover [Frame.apic 3 "m" 3 "a" [1], Frame.apic 3 "n" 4 "b" [2]] none).1 =
        (getall [Frame.apic 3 "m" 3 "a" [1], Frame.apic 3 "n" 4 "b" [2]] "APIC").length ∧
      remove_cover [Frame.apic 3 "m" 3 "a" [1], Frame.apic 3 "n" 4 "b" [2]] (some "all") =
        remove_cover [Frame.apic 3 "m" 3 "a" [1], Frame.apic 3 "n" 4 "b" [2]] none ∧
      getall (remove_cover [Frame.apic 3 "m" 3 "a" [1], Frame.apic 3 "n" 4 "b" [2]] none).2
        "APIC" = [] ∧
      (remove_cover [Frame.apic 3 "m" 3 "a" [1], Frame.apic 3 "n" 4 "b" [2]]
          (some "front")).1 =
        ((getall [Frame.apic 3 "m" 3 "a" [1], Frame.apic 3 "n" 4 "b" [2]] "APIC").filter
          (fun a => decide
            (a.apicType = (COVER_TYPE_MAP.lookup "front").getD 3))).length ∧
      getall (remove_cover [Frame.apic 3 "m" 3 "a" [1], Frame.apic 3 "n" 4 "b" [2]]
          (some "front")).2 "APIC" =
        (getall [Frame.apic 3 "m" 3 "a" [1], Frame.apic 3 "n" 4 "b" [2]] "APIC").filter
          (fun a => decide (¬ a.apicType = (COVER_TYPE_MAP.lookup "front").getD 3))) :=
  ⟨by decide, by decide,
    claim_C4 [Frame.apic 3 "m" 3 "a" [1], Frame.apic 3 "n" 4 "b" [2]] "front"
      (by decide) (by decide)⟩

/-- Counterexample to C3 as stated: on a container holding a front picture
(description `"x"`) and a back picture (empty description), adding a new front
picture erases the back picture — the new frame is stored under the hash key
`"APIC:"` which the back picture also occupies. -/
theorem claim_C3_cex :
    wf [Frame.apic 3 "image/jpeg" 3 "x" [1], Frame.apic 3 "image/png" 4 "" [2]] ∧
    get_cover_b64 [Frame.apic 3 "image/jpeg" 3 "x" [1], Frame.apic 3 "image/png" 4 "" [2]]
        "back" ≠ none ∧
    get_cover_b64
        (add_cover [Frame.apic 3 "image/jpeg" 3 "x" [1], Frame.apic 3 "image/png" 4 "" [2]]
          "front" "image/jpeg" [9]) "back" ≠
      get_cover_b64 [Frame.apic 3 "image/jpeg" 3 "x" [1], Frame.apic 3 "image/png" 4 "" [2]]
        "back" := by decide

/-- **C3 (amended)**: on a well-formed container holding a front picture and a
back picture whose description is non-empty (the description of newly added
pictures is empty, and frames are keyed by description), adding a front
picture leaves the back picture unchanged and makes the new image the front
picture. -/
theorem claim_C3_amended (tags : ID3) (mime : String) (data : List Nat)
    (e : Nat) (bm bd : String) (bdata : List Nat) (hwf : wf tags)
    (_hfront : (getall tags "APIC").any (isApicType 3) = true)
    (hback : (getall tags "APIC").find? (isApicType 4) = some (.apic e bm 4 bd bdata))
    (hdesc : bd ≠ "") :
    get_cover_b64 (add_cover tags "front" mime data) "back" = get_cover_b64 tags "back" ∧
    get_cover_b64 (add_cover tags "front" mime data) "front" =
      some ⟨mime, dataUrl mime data⟩ := by
  have hac := add_cover_eq hwf "front" mime data
  rw [show (COVER_TYPE_MAP.lookup "front").getD 3 = 3 from by decide] at hac
  have hfreshD : (Frame.apic 3 mime 3 "" data).hashKey ∉
      (delall tags "APIC").map Frame.hashKey := by
    intro hmem
    rw [delall_apic hwf] at hmem
    rcases List.mem_map.1 hmem with ⟨g, hg, hgk⟩
    have h2 : startswith g.hashKey "APIC:" = false := by
      rw [startswith_apic_key (hwf.2 g (List.mem_filter.1 hg).1)]
      simpa using (List.mem_filter.1 hg).2
    rw [hgk] at h2
    have h1 : startswith (Frame.apic 3 mime 3 "" data).hashKey "APIC:" = true := by
      show startswith ("APIC:" ++ "") "APIC:" = true
      exact startswith_prefix_append _ _
    rw [h1] at h2
    exact Bool.noConfusion h2
  rw [hac, setitem_append_left _ _ hfreshD]
  have hkept : ∀ g ∈ (getall tags "APIC").filter (fun a => decide (¬ a.apicType = 3)),
      g ∈ tags ∧ g.isApic = true := fun g hg => mem_getall_apic hwf hg
  have hgetall : getall (delall tags "APIC" ++
      setitem (Frame.apic 3 mime 3 "" data)
        ((getall tags "APIC").filter (fun a => decide (¬ a.apicType = 3)))) "APIC" =
      setitem (Frame.apic 3 mime 3 "" data)
        ((getall tags "APIC").filter (fun a => decide (¬ a.apicType = 3))) := by
    apply getall_apic_rebuild hwf
    intro g hg
    rcases mem_setitem hg with rfl | hg
    · exact ⟨rfl, rfl⟩
    · exact ⟨hwf.2 g (hkept g hg).1, (hkept g hg).2⟩
  constructor
  · unfold get_cover_b64
    rw [show (COVER_TYPE_MAP.lookup "back").getD 3 = 4 from by decide]
    rw [hgetall, coverFirst_eq_find, coverFirst_eq_find]
    have hkfind : ((getall tags "APIC").filter
        (fun a => decide (¬ a.apicType = 3))).find? (isApicType 4) =
        some (Frame.apic e bm 4 bd bdata) := by
      rw [find?_filter_of_imp]
      · exact hback
      · intro a ha
        cases a with
        | apic e2 m2 t2 d2 dat2 =>
          simp only [isApicType, decide_eq_true_eq] at ha
          subst ha
          rfl
        | text e2 fid t2 => simp [isApicType] at ha
        | comm e2 lg d t2 => simp [isApicType] at ha
        | uslt e2 lg d t2 => simp [isApicType] at ha
    have hfind : (setitem (Frame.apic 3 mime 3 "" data)
        ((getall tags "APIC").filter (fun a => decide (¬ a.apicType = 3)))).find?
          (isApicType 4) = some (Frame.apic e bm 4 bd bdata) := by
      apply find?_setitem_of_found rfl hkfind
      intro he
      exact hdesc (apic_desc_inj he)
    rw [hfind, hback]
  · unfold get_cover_b64
    rw [show (COVER_TYPE_MAP.lookup "front").getD 3 = 3 from by decide]
    rw [hgetall, coverFirst_eq_find]
    have hfind : (setitem (Frame.apic 3 mime 3 "" data)
        ((getall tags "APIC").filter (fun a => decide (¬ a.apicType = 3)))).find?
          (isApicType 3) = some (Frame.apic 3 mime 3 "" data) := by
      apply find?_setitem_of_none rfl
      intro g hg
      have hgp := (List.mem_filter.1 hg).2
      simp only [decide_eq_true_eq] at hgp
      cases g with
      | apic e2 m2 t2 d2 dat2 =>
        simp only [isApicType, decide_eq_false_iff_not]
        exact hgp
      | text e2 fid t2 => rfl
      | comm e2 lg d t2 => rfl
      | uslt e2 lg d t2 => rfl
    rw [hfind]
    rfl

/-- Witness for the amended C3: front picture with description `"x"`, back
picture with description `"y"`. -/
theorem claim_C3_witness :
    wf [Frame.apic 5 "image/jpeg" 3 "x" [1], Frame.apic 5 "image/png" 4 "y" [2]] ∧
    (getall [Frame.apic 5 "image/jpeg" 3 "x" [1], Frame.apic 5 "image/png" 4 "y" [2]]
      "APIC").any (isApicType 3) = true ∧
    (getall [Frame.apic 5 "image/jpeg" 3 "x" [1], Frame.apic 5 "image/png" 4 "y" [2]]
      "APIC").find? (isApicType 4) = some (.apic 5 "image/png" 4 "y" [2]) ∧
    ("y" : String) ≠ "" ∧
    (get_cover_b64
        (add_cover [Frame.apic 5 "image/jpeg" 3 "x" [1], Frame.apic 5 "image/png" 4 "y" [2]]
          "front" "image/bmp" [9]) "back" =
      get_cover_b64 [Frame.apic 5 "image/jpeg" 3 "x" [1], Frame.apic 5 "image/png" 4 "y" [2]]
        "back" ∧
    get_cover_b64
        (add_cover [Frame.apic 5 "image/jpeg" 3 "x" [1], Frame.apic 5 "image/png" 4 "y" [2]]
          "front" "image/bmp" [9]) "front" =
      some ⟨"image/bmp", dataUrl "image/bmp" [9]⟩) :=
  ⟨by decide, by decide, by decide, by decide,
    claim_C3_amended [Frame.apic 5 "image/jpeg" 3 "x" [1], Frame.apic 5 "image/png" 4 "y" [2]]
      "image/bmp" [9] 5 "image/png" "y" [2] (by decide) (by decide) (by decide) (by decide)⟩

/-- Counterexample to C6 as stated: `"all"` is a kind string that is neither
`"front"` nor `"back"`, yet `remove_cover` does not treat it as type code 3 —
on a container with one back picture it removes that picture (count 1),
whereas removing type-3 pictures would remove nothing. -/
theorem claim_C6_cex :
    ("all" : String) ≠ "front" ∧ ("all" : String) ≠ "back" ∧
    (remove_cover [Frame.apic 3 "m" 4 "d" [7]] (some "all")).1 = 1 ∧
    (remove_cover [Frame.apic 3 "m" 4 "d" [7]] (some "front")).1 = 0 ∧
    remove_cover [Frame.apic 3 "m" 4 "d" [7]] (some "all") ≠
      remove_cover [Frame.apic 3 "m" 4 "d" [7]] (some "front") := by decide

/-- **C6 (amended)**: every picture-kind string other than `"front"` and
`"back"` is treated as front's type code 3 by picture lookup and picture add;
the per-kind remove treats it as type code 3 as well, unless it is the
reserved word `"all"`, which triggers the remove-everything branch. -/
theorem claim_C6_amended (tags : ID3) (kind mime : String) (data : List Nat)
    (h1 : kind ≠ "front") (h2 : kind ≠ "back") :
    get_cover_b64 tags kind = get_cover_b64 tags "front" ∧
    add_cover tags kind mime data = add_cover tags "front" mime data ∧
    (kind ≠ "all" → remove_cover tags (some kind) = remove_cover tags (some "front")) := by
  have hl : COVER_TYPE_MAP.lookup kind = none := by
    unfold COVER_TYPE_MAP
    simp [List.lookup, beq_eq_false_iff_ne.2 h1, beq_eq_false_iff_ne.2 h2]
  have hc : (COVER_TYPE_MAP.lookup kind).getD 3 = (COVER_TYPE_MAP.lookup "front").getD 3 := by
    rw [hl]
    decide
  refine ⟨?_, ?_, fun h3 => ?_⟩
  · unfold get_cover_b64
    rw [hc]
  · unfold add_cover
    rw [hc]
  · unfold remove_cover
    dsimp only
    rw [if_neg h3, if_neg (show ¬ ("front" : String) = "all" by decide), hc]

/-- Witness for the amended C6 at the unknown kind `"cover"`. -/
theorem claim_C6_witness :
    ("cover" : String) ≠ "front" ∧ ("cover" : String) ≠ "back" ∧
    (get_cover_b64 [Frame.apic 3 "m" 3 "d" [7]] "cover" =
        get_cover_b64 [Frame.apic 3 "m" 3 "d" [7]] "front" ∧
      add_cover [Frame.apic 3 "m" 3 "d" [7]] "cover" "n" [8] =
        add_cover [Frame.apic 3 "m" 3 "d" [7]] "front" "n" [8] ∧
      (("cover" : String) ≠ "all" →
        remove_cover [Frame.apic 3 "m" 3 "d" [7]] (some "cover") =
          remove_cover [Frame.apic 3 "m" 3 "d" [7]] (some "front"))) :=
  ⟨by decide, by decide,
    claim_C6_amended [Frame.apic 3 "m" 3 "d" [7]] "cover" "n" [8] (by decide) (by decide)⟩
